import Mathlib

/-!
Verification of the db_analyzer name-normalization, type-resolution and
struct-emission logic.

Strings are modelled as Lean strings, that is, lists of characters.  The
case conversions of the source are modelled on the ASCII range, which is
the range its regular expressions ([a-z], [A-Z], [0-9]) operate on.
JavaScript string truthiness (the empty string is falsy) and the
rendering of the undefined value inside a template literal are modelled
explicitly, since both are observable in the source behaviour.

The repository contains two variants of the normalizers and resolvers:
the exported utility module at the top of utils.ts (namespace utils
below) and the top-level functions of the main program (namespace main
below).  Both are embedded.
-/

namespace DbAnalyzer

/-- Character class a-z of the source regular expressions. -/
def isLowerAlpha (c : Char) : Bool := decide (97 ≤ c.toNat ∧ c.toNat ≤ 122)

/-- Character class A-Z of the source regular expressions. -/
def isUpperAlpha (c : Char) : Bool := decide (65 ≤ c.toNat ∧ c.toNat ≤ 90)

/-- Character class 0-9 of the source regular expressions. -/
def isDigitCh (c : Char) : Bool := decide (48 ≤ c.toNat ∧ c.toNat ≤ 57)

/-- Character class a-z0-9. -/
def isLowerDigit (c : Char) : Bool := isLowerAlpha c || isDigitCh c

/-- Character class a-z0-9 and underscore, the snake-case alphabet. -/
def isSnakeChar (c : Char) : Bool := isLowerDigit c || c == '_'

/-- ASCII lowercasing of one character, model of toLowerCase. -/
def jsLowerChar (c : Char) : Char :=
  if isUpperAlpha c then Char.ofNat (c.toNat + 32) else c

/-- ASCII uppercasing of one character, model of toUpperCase. -/
def jsUpperChar (c : Char) : Char :=
  if isLowerAlpha c then Char.ofNat (c.toNat - 32) else c

/-- Lowercasing of a character list, model of toLowerCase. -/
def lowerL (l : List Char) : List Char := l.map jsLowerChar

/-- Global replacement of the pattern ([a-z0-9])([A-Z]) by the two
matched characters separated by an underscore; after a match the scan
resumes past the matched pair, as the JavaScript engine does. -/
def camelDigitL : List Char → List Char
  | a :: b :: rest =>
    if isLowerDigit a && isUpperAlpha b then a :: '_' :: b :: camelDigitL rest
    else a :: camelDigitL (b :: rest)
  | l => l

/-- Global replacement of the pattern ([a-z])([A-Z]) by the two matched
characters separated by an underscore. -/
def camelAlphaL : List Char → List Char
  | a :: b :: rest =>
    if isLowerAlpha a && isUpperAlpha b then a :: '_' :: b :: camelAlphaL rest
    else a :: camelAlphaL (b :: rest)
  | l => l

/-- Global replacement of the pattern ([A-Z])([A-Z][a-z]) by the same
three characters with an underscore after the first. -/
def acronymL : List Char → List Char
  | a :: b :: c :: rest =>
    if isUpperAlpha a && isUpperAlpha b && isLowerAlpha c then
      a :: '_' :: b :: c :: acronymL rest
    else a :: acronymL (b :: c :: rest)
  | l => l

/-- Global replacement of the pattern ([a-z])([A-Z]) by the two matched
characters separated by a space, used inside the struct-name logic. -/
def camelSpaceL : List Char → List Char
  | a :: b :: rest =>
    if isLowerAlpha a && isUpperAlpha b then a :: ' ' :: b :: camelSpaceL rest
    else a :: camelSpaceL (b :: rest)
  | l => l

/-- Replacement of every character outside the snake-case alphabet by an
underscore. -/
def cleanL (l : List Char) : List Char :=
  l.map fun c => if isSnakeChar c then c else '_'

/-- Splitting of a character list at every separator character, model of
the JavaScript split on a single-character pattern: separators are
dropped and empty segments are kept. -/
def splitSepL (sep : Char → Bool) : List Char → List (List Char)
  | [] => [[]]
  | c :: rest =>
    if sep c then [] :: splitSepL sep rest
    else
      match splitSepL sep rest with
      | r :: rs => (c :: r) :: rs
      | [] => [[c]]

/-- Title casing of one token: first character uppercased, remainder
lowercased, model of charAt zero uppercased plus the lowercased tail. -/
def titleCaseL : List Char → List Char
  | [] => []
  | c :: rest => jsUpperChar c :: rest.map jsLowerChar

/-- Lookup in a JavaScript object modelled as an association list; the
result none models the undefined value. -/
def jsGet (m : List (String × String)) (k : String) : Option String :=
  (m.find? fun p => p.1 == k).map fun p => p.2

/-- Truthiness of a possibly undefined JavaScript string: undefined and
the empty string are falsy. -/
def jsTruthy : Option String → Bool
  | none => false
  | some s => !(s == "")

/-- Model of the JavaScript short-circuit or on possibly undefined
strings. -/
def jsOr (a b : Option String) : Option String := if jsTruthy a then a else b

/-- Rendering of a possibly undefined string inside a template literal. -/
def jsStr : Option String → String
  | none => "undefined"
  | some s => s

/-- Test of the source expression endsWith applied to the array marker. -/
def endsWithArrL (l : List Char) : Bool :=
  match l.reverse with
  | ']' :: '[' :: _ => true
  | _ => false

namespace utils

/-- Embedding of toRustFieldName from the utility module: digit-aware
camelCase boundary insertion, lowercasing, then replacement of every
character outside the snake alphabet by an underscore. -/
def toRustFieldName (name : String) : String :=
  ⟨cleanL (lowerL (camelDigitL name.data))⟩

/-- Embedding of toRustStructName from the utility module: digit-aware
camelCase boundary insertion, lowercasing, cleaning, then splitting on
underscores and title-casing every part. -/
def toRustStructName (name : String) : String :=
  let snakeCase := lowerL (camelDigitL name.data)
  let cleanName := cleanL snakeCase
  ⟨((splitSepL (fun c => c == '_') cleanName).map titleCaseL).flatten⟩

/-- Embedding of toRustType from the utility module: lookup in the type
map with the fixed fallback string, then an Option wrapper when
nullable. -/
def toRustType (pgType : String) (isNullable : Bool)
    (typeMap : List (String × String)) : String :=
  let rustType := jsStr (jsOr (jsGet typeMap pgType) (some "String"))
  if isNullable then "Option<" ++ rustType ++ ">" else rustType

end utils

namespace main

/-- Embedding of the top-level toRustFieldName: camelCase boundary
insertion without digits, then the acronym boundary, lowercasing, and
replacement of every character outside the snake alphabet. -/
def toRustFieldName (name : String) : String :=
  ⟨cleanL (lowerL (acronymL (camelAlphaL name.data)))⟩

/-- Model of the mappings value loaded from mappings.json. -/
structure MappingsType where
  typeMap : List (String × String)
  specialCases : Option (List (String × String))

/-- Processing of one split token of the top-level toRustStructName: an
empty token yields nothing, an all-uppercase token longer than one
character is preserved verbatim, any other token is split at camelCase
boundaries and every sub-token is title-cased. -/
def processPartL (part : List Char) : List Char :=
  if part.isEmpty then []
  else if part.map jsUpperChar == part && decide (1 < part.length) then part
  else ((splitSepL (fun c => c == ' ') (camelSpaceL part)).map titleCaseL).flatten

/-- Embedding of the top-level toRustStructName: a truthy special-case
entry for the lowercased name short-circuits; otherwise the name is
split on non-alphanumeric characters and every token is processed. -/
def toRustStructName (mappings : MappingsType) (name : String) : String :=
  let specialCases := mappings.specialCases.getD []
  let lowerName : String := ⟨lowerL name.data⟩
  let hit := jsGet specialCases lowerName
  if jsTruthy hit then jsStr hit
  else
    ⟨((splitSepL (fun c => !(isLowerAlpha c || isUpperAlpha c || isDigitCh c))
        name.data).map processPartL).flatten⟩

/-- Embedding of the top-level getRustType: plain lookup with fallback
to the default entry, a non-recursive Vec wrapper for array-marked
types, then an Option wrapper when nullable.  The result none models an
undefined return value. -/
def getRustType (pgType : String) (isNullable : Bool)
    (typeMap : List (String × String)) : Option String :=
  let rustType := jsOr (jsGet typeMap pgType) (jsGet typeMap "default")
  let rustType :=
    if endsWithArrL pgType.data then
      let baseType : String := ⟨pgType.data.take (pgType.data.length - 2)⟩
      let baseRustType := jsOr (jsGet typeMap baseType) (jsGet typeMap "default")
      some ("Vec<" ++ jsStr baseRustType ++ ">")
    else rustType
  if isNullable then some ("Option<" ++ jsStr rustType ++ ">") else rustType

/-- Embedding of the hard-coded default mappings value created when
mappings.json is absent or unparsable. -/
def defaultMappings : MappingsType where
  typeMap :=
    [("int2", "i16"), ("int4", "i32"), ("int8", "i64"), ("float4", "f32"),
     ("float8", "f64"), ("numeric", "f64"), ("bool", "bool"),
     ("varchar", "String"), ("char", "String"), ("text", "String"),
     ("uuid", "uuid::Uuid"), ("date", "chrono::NaiveDate"),
     ("timestamp", "chrono::NaiveDateTime"),
     ("timestamptz", "chrono::DateTime<chrono::Utc>"),
     ("json", "serde_json::Value"), ("jsonb", "serde_json::Value")]
  specialCases := some []

/-- Embedding of the mappings loading block: the read-and-parse step is
abstracted as an Except value, and the catch branch substitutes the
hard-coded default mappings instead of propagating the failure. -/
def loadMappings (loaded : Except String MappingsType) : MappingsType :=
  match loaded with
  | Except.ok m => m
  | Except.error _ => defaultMappings

/-- Model of one row of the column query of generateRustTypes. -/
structure ColumnRow where
  column_name : String
  data_type : String
  is_nullable : String
  column_default : Option String

/-- Embedding of the header attribute lines emitted before a struct,
depending on the sqlx flag. -/
def structHeader (sqlx : Bool) (tableName : String) : String :=
  if sqlx then
    "#[derive(Debug, Serialize, Deserialize, sqlx::FromRow)]\n"
      ++ "#[sqlx(rename_all = \"camelCase\")]\n"
      ++ "#[sqlx(table = \"" ++ tableName ++ "\")]\n"
  else
    "#[derive(Debug, Serialize, Deserialize)]\n"
      ++ "#[serde(rename_all = \"camelCase\")]\n"
      ++ "#[serde(rename = \"" ++ tableName ++ "\")]\n"

/-- Embedding of the text appended for one column inside the field loop
of generateRustTypes: the doc comment line, the optional rename
attribute, and the field line itself. -/
def fieldBlock (sqlx : Bool) (typeMap : List (String × String))
    (column : ColumnRow) : String :=
  let originalColumnName := column.column_name
  let fieldName := toRustFieldName originalColumnName
  let isNullable := column.is_nullable == "YES"
  let rustType := getRustType column.data_type isNullable typeMap
  let docLine := "    /// " ++ originalColumnName ++ " - " ++ column.data_type
      ++ (if isNullable then ", nullable" else "")
      ++ (if jsTruthy column.column_default then
            ", default: " ++ jsStr column.column_default
          else "")
      ++ "\n"
  let renameLine :=
    if fieldName == (⟨lowerL originalColumnName.data⟩ : String) then ""
    else if sqlx then "    #[sqlx(rename = \"" ++ originalColumnName ++ "\")]\n"
    else "    #[serde(rename = \"" ++ originalColumnName ++ "\")]\n"
  docLine ++ renameLine ++ "    pub " ++ fieldName ++ ": " ++ jsStr rustType
    ++ ",\n"

/-- Embedding of the per-table portion of generateRustTypes: the header
attribute lines, the struct opening, the field loop accumulating one
field block per column in declaration order, and the closing brace. -/
def emitTableStruct (sqlx : Bool) (mappings : MappingsType)
    (tableName : String) (columns : List ColumnRow) : String :=
  let structName := toRustStructName mappings tableName
  (columns.foldl (fun acc column => acc ++ fieldBlock sqlx mappings.typeMap column)
      (structHeader sqlx tableName ++ "pub struct " ++ structName ++ " \x7b\n"))
    ++ "\x7d\n\n"

end main

/-- Mappings value with no type entries and no special cases, used as a
concrete test fixture. -/
def emptyMappings : main.MappingsType where
  typeMap := []
  specialCases := some []

/-- Specification-side description of the field section of a struct: the
concatenation of exactly one field block per input column, in input
order. -/
def fieldsInOrder (sqlx : Bool) (typeMap : List (String × String)) :
    List main.ColumnRow → String
  | [] => ""
  | column :: rest =>
    main.fieldBlock sqlx typeMap column ++ fieldsInOrder sqlx typeMap rest

/-! Helper lemmas about snake-case output. -/

/-- Snake characters are never in the uppercase class. -/
theorem snake_not_upper (c : Char) (h : isSnakeChar c = true) :
    isUpperAlpha c = false := by
  have h2 : (97 ≤ c.toNat ∧ c.toNat ≤ 122) ∨ (48 ≤ c.toNat ∧ c.toNat ≤ 57)
      ∨ c = '_' := by
    simpa [isSnakeChar, isLowerDigit, isLowerAlpha, isDigitCh, or_assoc] using h
  rw [isUpperAlpha, decide_eq_false_iff_not]
  rcases h2 with h2 | h2 | h2
  · omega
  · omega
  · subst h2; decide

/-- Every character produced by the cleaning step is a snake character. -/
theorem cleanL_chars_snake (l : List Char) :
    ∀ c ∈ cleanL l, isSnakeChar c = true := by
  intro c hc
  simp only [cleanL, List.mem_map] at hc
  obtain ⟨a, -, rfl⟩ := hc
  by_cases h : isSnakeChar a = true
  · rw [if_pos h]; exact h
  · rw [if_neg h]; decide

/-- The digit-aware camelCase boundary pass fixes lists with no
uppercase character. -/
theorem camelDigitL_eq_self :
    ∀ l : List Char, (∀ c ∈ l, isUpperAlpha c = false) → camelDigitL l = l
  | [], _ => rfl
  | [_], _ => rfl
  | a :: b :: rest, h => by
    have hb : isUpperAlpha b = false := h b (by simp)
    have hg : ¬((isLowerDigit a && isUpperAlpha b) = true) := by simp [hb]
    have ih := camelDigitL_eq_self (b :: rest)
      (fun x hx => h x (List.mem_cons_of_mem a hx))
    simp only [camelDigitL]
    rw [if_neg hg, ih]

/-- The letter-only camelCase boundary pass fixes lists with no
uppercase character. -/
theorem camelAlphaL_eq_self :
    ∀ l : List Char, (∀ c ∈ l, isUpperAlpha c = false) → camelAlphaL l = l
  | [], _ => rfl
  | [_], _ => rfl
  | a :: b :: rest, h => by
    have hb : isUpperAlpha b = false := h b (by simp)
    have hg : ¬((isLowerAlpha a && isUpperAlpha b) = true) := by simp [hb]
    have ih := camelAlphaL_eq_self (b :: rest)
      (fun x hx => h x (List.mem_cons_of_mem a hx))
    simp only [camelAlphaL]
    rw [if_neg hg, ih]

/-- The acronym boundary pass fixes lists with no uppercase character. -/
theorem acronymL_eq_self :
    ∀ l : List Char, (∀ c ∈ l, isUpperAlpha c = false) → acronymL l = l
  | [], _ => rfl
  | [_], _ => rfl
  | [_, _], _ => rfl
  | a :: b :: c :: rest, h => by
    have ha : isUpperAlpha a = false := h a (by simp)
    have hg : ¬((isUpperAlpha a && isUpperAlpha b && isLowerAlpha c) = true) := by
      simp [ha]
    have ih := acronymL_eq_self (b :: c :: rest)
      (fun x hx => h x (List.mem_cons_of_mem a hx))
    simp only [acronymL]
    rw [if_neg hg, ih]

/-- Lowercasing fixes lists with no uppercase character. -/
theorem lowerL_eq_self :
    ∀ l : List Char, (∀ c ∈ l, isUpperAlpha c = false) → lowerL l = l
  | [], _ => rfl
  | a :: t, h => by
    have ha : jsLowerChar a = a := by
      rw [jsLowerChar, if_neg]
      simp [h a (by simp)]
    have ih := lowerL_eq_self t (fun x hx => h x (List.mem_cons_of_mem a hx))
    simp only [lowerL, List.map_cons]
    rw [ha]
    exact congrArg (List.cons a) ih

/-- Cleaning fixes lists made of snake characters. -/
theorem cleanL_eq_self :
    ∀ l : List Char, (∀ c ∈ l, isSnakeChar c = true) → cleanL l = l
  | [], _ => rfl
  | a :: t, h => by
    have ih := cleanL_eq_self t (fun x hx => h x (List.mem_cons_of_mem a hx))
    simp only [cleanL, List.map_cons]
    rw [if_pos (h a (by simp))]
    exact congrArg (List.cons a) ih

/-! Helper lemmas about lengths. -/

/-- The digit-aware camelCase boundary pass never shortens a list. -/
theorem camelDigitL_length :
    ∀ l : List Char, l.length ≤ (camelDigitL l).length
  | [] => Nat.le_refl _
  | [_] => Nat.le_refl _
  | a :: b :: rest => by
    have h1 := camelDigitL_length rest
    have h2 := camelDigitL_length (b :: rest)
    simp only [camelDigitL]
    by_cases hg : (isLowerDigit a && isUpperAlpha b) = true
    · rw [if_pos hg]
      simp only [List.length_cons] at *
      omega
    · rw [if_neg hg]
      simp only [List.length_cons] at *
      omega

/-- The letter-only camelCase boundary pass never shortens a list. -/
theorem camelAlphaL_length :
    ∀ l : List Char, l.length ≤ (camelAlphaL l).length
  | [] => Nat.le_refl _
  | [_] => Nat.le_refl _
  | a :: b :: rest => by
    have h1 := camelAlphaL_length rest
    have h2 := camelAlphaL_length (b :: rest)
    simp only [camelAlphaL]
    by_cases hg : (isLowerAlpha a && isUpperAlpha b) = true
    · rw [if_pos hg]
      simp only [List.length_cons] at *
      omega
    · rw [if_neg hg]
      simp only [List.length_cons] at *
      omega

/-- The acronym boundary pass never shortens a list. -/
theorem acronymL_length :
    ∀ l : List Char, l.length ≤ (acronymL l).length
  | [] => Nat.le_refl _
  | [_] => Nat.le_refl _
  | [_, _] => Nat.le_refl _
  | a :: b :: c :: rest => by
    have h1 := acronymL_length rest
    have h2 := acronymL_length (b :: c :: rest)
    simp only [acronymL]
    by_cases hg : (isUpperAlpha a && isUpperAlpha b && isLowerAlpha c) = true
    · rw [if_pos hg]
      simp only [List.length_cons] at *
      omega
    · rw [if_neg hg]
      simp only [List.length_cons] at *
      omega

/-- A string is empty exactly when its character list is empty. -/
theorem string_eq_empty_iff (s : String) : s = "" ↔ s.data = [] := by
  constructor
  · intro h; rw [h]
  · intro h; apply String.ext; rw [h]

/-- Accumulating field blocks with a left fold equals prefixing the
accumulator to the in-order concatenation of the field blocks. -/
theorem foldl_fieldBlock_eq (sqlx : Bool) (typeMap : List (String × String)) :
    ∀ (columns : List main.ColumnRow) (acc : String),
      columns.foldl (fun a column => a ++ main.fieldBlock sqlx typeMap column) acc
        = acc ++ fieldsInOrder sqlx typeMap columns
  | [], acc => by
    simp only [List.foldl_nil, fieldsInOrder]
    rw [String.append_empty]
  | column :: rest, acc => by
    simp only [List.foldl_cons, fieldsInOrder]
    rw [foldl_fieldBlock_eq sqlx typeMap rest, String.append_assoc]

/-! Claim theorems. -/

/-- C1 (counterexample): with the base type itself array-marked, the
top-level resolver does not resolve the base recursively, and the
utility resolver does no array wrapping at all, so the universally
quantified wrapping law fails at a concrete input under either
implementation. -/
theorem C1_counterexample :
    main.getRustType ("int4[]" ++ "[]") true [("int4", "i32")]
      ≠ some ("Option<Vec<"
          ++ jsStr (main.getRustType "int4[]" false [("int4", "i32")]) ++ ">>")
    ∧ utils.toRustType ("int4" ++ "[]") true [("int4", "i32")]
      ≠ "Option<Vec<i32>>" :=
  ⟨by decide, by decide⟩

/-- C1 (amended): for every base type T that is not itself array-marked
and every type map, the top-level getRustType resolves T with the array
marker and nullable true to the Option wrapper applied outside the Vec
wrapper around the non-nullable resolution of T; array wrapping happens
strictly before nullable wrapping. -/
theorem C1_array_wraps_before_option (T : String) (m : List (String × String))
    (h : endsWithArrL T.data = false) :
    main.getRustType (T ++ "[]") true m
      = some ("Option<Vec<" ++ jsStr (main.getRustType T false m) ++ ">>") := by
  have e1 : endsWithArrL (T ++ "[]").data = true := by
    rw [String.data_append]
    show endsWithArrL (T.data ++ ['[', ']']) = true
    simp [endsWithArrL, List.reverse_append]
  have e2 : (T ++ "[]").data.take ((T ++ "[]").data.length - 2) = T.data := by
    rw [String.data_append]
    show (T.data ++ ['[', ']']).take ((T.data ++ ['[', ']']).length - 2) = T.data
    rw [List.length_append]
    show (T.data ++ ['[', ']']).take (T.data.length + 2 - 2) = T.data
    rw [Nat.add_sub_cancel]
    exact List.take_left T.data ['[', ']']
  simp only [main.getRustType, e1, e2, h, if_true, if_false, Bool.false_eq_true,
    ite_true, ite_false]
  apply congrArg some
  apply String.ext
  simp only [jsStr, String.data_append, List.append_assoc]
  rfl

/-- C1 (witness): the amended wrapping law at a concrete scalar base
type and mapping. -/
theorem C1_witness :
    endsWithArrL ("int4" : String).data = false
    ∧ main.getRustType ("int4" ++ "[]") true [("int4", "i32")]
      = some ("Option<Vec<"
          ++ jsStr (main.getRustType "int4" false [("int4", "i32")]) ++ ">>") :=
  ⟨by decide, C1_array_wraps_before_option "int4" [("int4", "i32")] (by decide)⟩

/-- C2 (counterexample): the top-level resolver yields the undefined
value, not the fixed string type, on an unknown scalar type with an
empty type map, and the utility resolver ignores a present default
entry; the combined claim fails under either implementation. -/
theorem C2_counterexample :
    main.getRustType "unknown_type" false [] ≠ some "String"
    ∧ utils.toRustType "unknown_type" false [("default", "i64")] ≠ "i64" :=
  ⟨by decide, by decide⟩

/-- C2 (amended): resolution of an unknown type never fails: the
utility toRustType always returns the fixed fallback string type,
ignoring any default entry, while the top-level getRustType on a scalar
unknown type returns exactly the default entry of the type map, which
is the undefined value when absent. -/
theorem C2_unknown_type_fallback (t : String) (m : List (String × String))
    (h : jsGet m t = none) :
    utils.toRustType t false m = "String"
    ∧ (endsWithArrL t.data = false →
        main.getRustType t false m = jsGet m "default") := by
  constructor
  · simp only [utils.toRustType, h]
    rfl
  · intro ha
    simp only [main.getRustType, h, ha, Bool.false_eq_true, ite_false]
    rfl

/-- C2 (witness): the amended fallback law at a concrete unknown type
with an empty mapping. -/
theorem C2_witness :
    jsGet [] "unknown_type" = none
    ∧ utils.toRustType "unknown_type" false [] = "String"
    ∧ main.getRustType "unknown_type" false []
        = jsGet ([] : List (String × String)) "default" :=
  ⟨rfl, (C2_unknown_type_fallback "unknown_type" [] rfl).1,
   (C2_unknown_type_fallback "unknown_type" [] rfl).2 (by decide)⟩

/-- C3 (counterexample): no single field normalizer satisfies both the
digit-aware boundary example and the acronym boundary: the utility one
has no acronym rule, the top-level one has no digit boundary. -/
theorem C3_counterexample :
    utils.toRustFieldName "ABCWord" ≠ "abc_word"
    ∧ main.toRustFieldName "user123Id" ≠ "user123_id" :=
  ⟨by decide, by decide⟩

/-- C3 (amended): the utility toRustFieldName satisfies all eight
listed examples exactly, including the digit-aware boundary and the
all-uppercase case; the acronym-to-word boundary exists only in the
top-level toRustFieldName, which maps ABCWord to abc_word but maps
user123Id to user123id. -/
theorem C3_field_name_examples :
    utils.toRustFieldName "userId" = "user_id"
    ∧ utils.toRustFieldName "UserId" = "user_id"
    ∧ utils.toRustFieldName "user_id" = "user_id"
    ∧ utils.toRustFieldName "User_Id" = "user_id"
    ∧ utils.toRustFieldName "user-id" = "user_id"
    ∧ utils.toRustFieldName "user.id" = "user_id"
    ∧ utils.toRustFieldName "user123Id" = "user123_id"
    ∧ utils.toRustFieldName "USERID" = "userid"
    ∧ main.toRustFieldName "ABCWord" = "abc_word"
    ∧ main.toRustFieldName "user123Id" = "user123id" := by
  refine ⟨?_, ?_, ?_, ?_, ?_, ?_, ?_, ?_, ?_, ?_⟩ <;> decide

/-- C4 (counterexample): neither struct-name normalizer is idempotent,
each refuted at a concrete input with a fixed special-case mapping. -/
theorem C4_counterexample :
    main.toRustStructName emptyMappings
        (main.toRustStructName emptyMappings "AB_cd")
      ≠ main.toRustStructName emptyMappings "AB_cd"
    ∧ utils.toRustStructName (utils.toRustStructName "a__b")
      ≠ utils.toRustStructName "a__b" :=
  ⟨by decide, by decide⟩

/-- C4 (amended): both field-name normalizers are idempotent on every
string; the struct-name normalizers are not. -/
theorem C4_field_name_idempotent (x : String) :
    utils.toRustFieldName (utils.toRustFieldName x) = utils.toRustFieldName x
    ∧ main.toRustFieldName (main.toRustFieldName x) = main.toRustFieldName x := by
  constructor
  · have hs : ∀ c ∈ cleanL (lowerL (camelDigitL x.data)), isSnakeChar c = true :=
      cleanL_chars_snake _
    have hu : ∀ c ∈ cleanL (lowerL (camelDigitL x.data)), isUpperAlpha c = false :=
      fun c hc => snake_not_upper c (hs c hc)
    show (⟨cleanL (lowerL (camelDigitL (cleanL (lowerL (camelDigitL x.data)))))⟩ : String)
      = ⟨cleanL (lowerL (camelDigitL x.data))⟩
    rw [camelDigitL_eq_self _ hu, lowerL_eq_self _ hu, cleanL_eq_self _ hs]
  · have hs : ∀ c ∈ cleanL (lowerL (acronymL (camelAlphaL x.data))),
        isSnakeChar c = true := cleanL_chars_snake _
    have hu : ∀ c ∈ cleanL (lowerL (acronymL (camelAlphaL x.data))),
        isUpperAlpha c = false := fun c hc => snake_not_upper c (hs c hc)
    show (⟨cleanL (lowerL (acronymL (camelAlphaL
        (cleanL (lowerL (acronymL (camelAlphaL x.data)))))))⟩ : String)
      = ⟨cleanL (lowerL (acronymL (camelAlphaL x.data)))⟩
    rw [camelAlphaL_eq_self _ hu, acronymL_eq_self _ hu, lowerL_eq_self _ hu,
      cleanL_eq_self _ hs]

/-- C5 (counterexample): the top-level struct normalizer preserves an
all-uppercase token verbatim, refuting the listed USER_PROFILES
example, and the utility one title-cases it, refuting the verbatim
preservation step; the combined claim fails under either
implementation. -/
theorem C5_counterexample :
    main.toRustStructName emptyMappings "USER_PROFILES" ≠ "UserProfiles"
    ∧ utils.toRustStructName "USER" ≠ "USER" :=
  ⟨by decide, by decide⟩

/-- C5 (amended): the utility toRustStructName satisfies all six listed
examples exactly but does not preserve all-uppercase tokens; the
top-level toRustStructName preserves all-uppercase multi-character
tokens verbatim, satisfies the other five examples, and maps
USER_PROFILES to USERPROFILES. -/
theorem C5_struct_name_examples :
    utils.toRustStructName "user_profiles" = "UserProfiles"
    ∧ utils.toRustStructName "userProfiles" = "UserProfiles"
    ∧ utils.toRustStructName "UserProfiles" = "UserProfiles"
    ∧ utils.toRustStructName "user-profiles" = "UserProfiles"
    ∧ utils.toRustStructName "user123_profiles" = "User123Profiles"
    ∧ utils.toRustStructName "USER_PROFILES" = "UserProfiles"
    ∧ main.toRustStructName emptyMappings "user_profiles" = "UserProfiles"
    ∧ main.toRustStructName emptyMappings "userProfiles" = "UserProfiles"
    ∧ main.toRustStructName emptyMappings "UserProfiles" = "UserProfiles"
    ∧ main.toRustStructName emptyMappings "user-profiles" = "UserProfiles"
    ∧ main.toRustStructName emptyMappings "user123_profiles" = "User123Profiles"
    ∧ main.toRustStructName emptyMappings "USER_PROFILES" = "USERPROFILES" := by
  refine ⟨?_, ?_, ?_, ?_, ?_, ?_, ?_, ?_, ?_, ?_, ?_, ?_⟩ <;> decide

/-- C6 (counterexample): an empty-string special-case value is falsy,
so the lookup does not short-circuit and the normal naming rules apply
instead of returning the mapped value verbatim. -/
theorem C6_counterexample :
    main.toRustStructName (main.MappingsType.mk [] (some [("users", "")]))
        "users" = "Users"
    ∧ main.toRustStructName (main.MappingsType.mk [] (some [("users", "")]))
        "users" ≠ "" :=
  ⟨by decide, by decide⟩

/-- C6 (amended): when the lowercased table name maps to a non-empty
value in the special cases, the top-level toRustStructName returns that
value verbatim, short-circuiting all other naming rules. -/
theorem C6_special_case_short_circuit (mappings : main.MappingsType)
    (sc : List (String × String)) (name v : String)
    (hsc : mappings.specialCases = some sc)
    (hv : jsGet sc ⟨lowerL name.data⟩ = some v) (hne : v ≠ "") :
    main.toRustStructName mappings name = v := by
  have hb : (v == "") = false := beq_eq_false_iff_ne.mpr hne
  simp only [main.toRustStructName, hsc, Option.getD_some, hv, jsTruthy, jsStr, hb,
    Bool.not_false, if_true, ite_true]

/-- C6 (witness): the amended short-circuit at a concrete mapping and a
name whose lowercasing hits the special case. -/
theorem C6_witness :
    (main.MappingsType.mk [] (some [("users", "Custom")])).specialCases
        = some [("users", "Custom")]
    ∧ jsGet [("users", "Custom")] ⟨lowerL ("USERS" : String).data⟩ = some "Custom"
    ∧ ("Custom" : String) ≠ ""
    ∧ main.toRustStructName (main.MappingsType.mk [] (some [("users", "Custom")]))
        "USERS" = "Custom" :=
  ⟨rfl, by decide, by decide,
   C6_special_case_short_circuit _ _ "USERS" "Custom" rfl (by decide) (by decide)⟩

/-- C7: when loading fails, the hard-coded default mappings value is
substituted rather than a failure being propagated, every successful
load is passed through unchanged, and the default value is a well
formed sixteen-entry mapping with empty special cases. -/
theorem C7_load_defaults_on_error :
    (∀ e : String, main.loadMappings (Except.error e) = main.defaultMappings)
    ∧ (∀ m : main.MappingsType, main.loadMappings (Except.ok m) = m)
    ∧ jsGet main.defaultMappings.typeMap "int4" = some "i32"
    ∧ jsGet main.defaultMappings.typeMap "uuid" = some "uuid::Uuid"
    ∧ main.defaultMappings.typeMap.length = 16
    ∧ main.defaultMappings.specialCases = some [] :=
  ⟨fun _ => rfl, fun _ => rfl, by decide, by decide, rfl, rfl⟩

/-- C8: the emitted struct text is the header, the struct opening, the
concatenation of exactly one field block per input column in input
order, and the closing brace; a table with no columns yields a struct
with an empty body. -/
theorem C8_emit_fields_in_order (sqlx : Bool) (mappings : main.MappingsType)
    (tableName : String) (columns : List main.ColumnRow) :
    main.emitTableStruct sqlx mappings tableName columns
      = main.structHeader sqlx tableName ++ "pub struct "
        ++ main.toRustStructName mappings tableName ++ " \x7b\n"
        ++ fieldsInOrder sqlx mappings.typeMap columns ++ "\x7d\n\n"
    ∧ main.emitTableStruct sqlx mappings tableName []
      = main.structHeader sqlx tableName ++ "pub struct "
        ++ main.toRustStructName mappings tableName ++ " \x7b\n" ++ "\x7d\n\n" := by
  constructor
  · simp only [main.emitTableStruct]
    rw [foldl_fieldBlock_eq]
  · simp only [main.emitTableStruct, List.foldl_nil]

/-- C9: the two field-name normalizers are not extensionally equal:
they differ on a concrete input because only the utility one inserts a
boundary between a digit and an uppercase letter. -/
theorem C9_normalizers_differ :
    utils.toRustFieldName "user123Id" ≠ main.toRustFieldName "user123Id" := by
  decide

/-- C10: the output of either field normalizer consists only of snake
characters, its length is at least the input length, and a non-empty
input yields a non-empty output. -/
theorem C10_field_name_invariants (s : String) :
    (utils.toRustFieldName s).data.all isSnakeChar = true
    ∧ s.length ≤ (utils.toRustFieldName s).length
    ∧ (main.toRustFieldName s).data.all isSnakeChar = true
    ∧ s.length ≤ (main.toRustFieldName s).length
    ∧ (s ≠ "" → utils.toRustFieldName s ≠ "" ∧ main.toRustFieldName s ≠ "") := by
  have hlen1 : s.data.length ≤ (utils.toRustFieldName s).data.length := by
    show s.data.length ≤ (cleanL (lowerL (camelDigitL s.data))).length
    simp only [cleanL, lowerL, List.length_map]
    exact camelDigitL_length s.data
  have hlen2 : s.data.length ≤ (main.toRustFieldName s).data.length := by
    show s.data.length ≤ (cleanL (lowerL (acronymL (camelAlphaL s.data)))).length
    simp only [cleanL, lowerL, List.length_map]
    exact Nat.le_trans (camelAlphaL_length s.data) (acronymL_length _)
  refine ⟨?_, hlen1, ?_, hlen2, ?_⟩
  · exact List.all_eq_true.mpr fun c hc => cleanL_chars_snake _ c hc
  · exact List.all_eq_true.mpr fun c hc => cleanL_chars_snake _ c hc
  · intro hne
    have hd : s.data ≠ [] := fun h0 => hne ((string_eq_empty_iff s).mpr h0)
    have hpos : 0 < s.data.length := List.length_pos.mpr hd
    constructor
    · rw [Ne, string_eq_empty_iff]
      intro h0
      rw [h0] at hlen1
      simp only [List.length_nil] at hlen1
      omega
    · rw [Ne, string_eq_empty_iff]
      intro h0
      rw [h0] at hlen2
      simp only [List.length_nil] at hlen2
      omega

/-- C10 (witness): the non-emptiness implication at a concrete input. -/
theorem C10_witness :
    ("userId" : String) ≠ ""
    ∧ utils.toRustFieldName "userId" ≠ ""
    ∧ main.toRustFieldName "userId" ≠ "" :=
  ⟨by decide, ((C10_field_name_invariants "userId").2.2.2.2 (by decide)).1,
   ((C10_field_name_invariants "userId").2.2.2.2 (by decide)).2⟩

end DbAnalyzer

